import Mathlib

/-!
Verification development for the EDHREC_Retriever repository.

JavaScript strings are modelled as `List Char` (one entry per UTF-16 unit of
the source's strings; all constants involved are ASCII or BMP characters, so
this is faithful for every input exercised here).  Each definition mirrors one
function of the JavaScript source; DOM documents are modelled by the `Dom`
tree type and the site-specific query helpers used by the extractors.
-/

/-- JavaScript strings, modelled as lists of characters. -/
abbrev JSStr := List Char

/-- Embed a Lean string literal as a modelled JavaScript string. -/
def js (s : String) : JSStr := s.data

/-- Character class of the JavaScript regular-expression `\s` and of
`String.prototype.trim`: space, tab, line feed, vertical tab, form feed,
carriage return, no-break space, BOM and the Unicode space separators. -/
def jsSpace (c : Char) : Bool :=
  c = ' ' || c = '\t' || c = '\n' || c = Char.ofNat 0x0B || c = Char.ofNat 0x0C ||
  c = '\r' || c = Char.ofNat 0xA0 || c = Char.ofNat 0x1680 ||
  (Char.ofNat 0x2000 ≤ c && c ≤ Char.ofNat 0x200A) ||
  c = Char.ofNat 0x2028 || c = Char.ofNat 0x2029 || c = Char.ofNat 0x202F ||
  c = Char.ofNat 0x205F || c = Char.ofNat 0x3000 || c = Char.ofNat 0xFEFF

/-- JavaScript line terminators, the characters the regexp `.` does not match. -/
def jsLineTerm (c : Char) : Bool :=
  c = '\n' || c = '\r' || c = Char.ofNat 0x2028 || c = Char.ofNat 0x2029

/-- ASCII lower-case letter, the class `[a-z]`. -/
def isLowerAZ (c : Char) : Bool := 'a' ≤ c && c ≤ 'z'

/-- ASCII upper-case letter, the class `[A-Z]`. -/
def isUpperAZ (c : Char) : Bool := 'A' ≤ c && c ≤ 'Z'

/-- ASCII digit, the class `\d`. -/
def isDigitC (c : Char) : Bool := '0' ≤ c && c ≤ '9'

/-- Word character of the regexp `\b` boundary (the class `\w`). -/
def isWordC (c : Char) : Bool := isLowerAZ c || isUpperAZ c || isDigitC c || c = '_'

/-- Model of `String.prototype.trim`. -/
def jsTrim (l : JSStr) : JSStr :=
  ((l.dropWhile jsSpace).reverse.dropWhile jsSpace).reverse

/-- Model of `String.prototype.split(sep)` for a one-character separator:
always returns at least one (possibly empty) segment. -/
def splitOnChar (sep : Char) : JSStr → List JSStr
  | [] => [[]]
  | x :: xs =>
    match splitOnChar sep xs with
    | [] => [[x]]
    | h :: t => if x = sep then [] :: h :: t else (x :: h) :: t

/-- Model of `String.prototype.includes` for a substring needle. -/
def containsSeq (needle : JSStr) : JSStr → Bool
  | [] => needle.isEmpty
  | c :: rest => needle.isPrefixOf (c :: rest) || containsSeq needle rest

/-- Lower-casing of ASCII letters, modelling `toLowerCase` on the ASCII
strings the extractor compares (label texts such as "Inclusion"). -/
def toLowerJS (l : JSStr) : JSStr :=
  l.map (fun c => if isUpperAZ c then Char.ofNat (c.toNat + 32) else c)

/-- Numeric value of a digit string (the integer part handed to `parseInt`). -/
def digitsToNat (l : JSStr) : Nat :=
  l.foldl (fun acc c => acc * 10 + (c.toNat - '0'.toNat)) 0

/-- Model of `parseFloat` on the numeric strings this program feeds it:
leading whitespace, an optional sign, an integer part and/or a decimal
fraction, and an optional exponent; `none` models the `NaN` result.
(The `Infinity` literal never occurs in this program's inputs.)  The value
is assembled with `mkRat` as sign * digits(ip ++ fp) / 10^|fp| * 10^expo,
the exact rational the decimal literal denotes. -/
def jsParseFloat (l : JSStr) : Option ℚ :=
  let s1 := l.dropWhile jsSpace
  let (sgn, s2) : Int × JSStr :=
    match s1 with
    | '-' :: r => (-1, r)
    | '+' :: r => (1, r)
    | r => (1, r)
  let ip := s2.takeWhile isDigitC
  let s3 := s2.drop ip.length
  let (fp, s4) : JSStr × JSStr :=
    match s3 with
    | '.' :: r => (r.takeWhile isDigitC, r.drop (r.takeWhile isDigitC).length)
    | r => ([], r)
  if ip.isEmpty && fp.isEmpty then none
  else
    let expo : Int :=
      match s4 with
      | 'e' :: r | 'E' :: r =>
        let (esgn, r2) : Int × JSStr :=
          match r with
          | '-' :: r2 => (-1, r2)
          | '+' :: r2 => (1, r2)
          | r2 => (1, r2)
        let ed := r2.takeWhile isDigitC
        if ed.isEmpty then 0 else esgn * (digitsToNat ed : Int)
      | _ => 0
    let num : Int := sgn * (digitsToNat (ip ++ fp) : Int)
    if 0 ≤ expo then some (mkRat (num * ((10 : Int) ^ expo.toNat)) ((10 : Nat) ^ fp.length))
    else some (mkRat num ((10 : Nat) ^ fp.length * (10 : Nat) ^ (-expo).toNat))

/-!
The text normalizer `exactClean` (upgrade-guide extractor, both variants share
the identical function).  The JavaScript loop state is the current string
`cleaned`; one pass of the `while (changed)` body is `stepClean`, which
returns `none` when the pass leaves the string unchanged (no `[a-z][A-Z]`
boundary, or the replay failed to match) and `some cleaned'` otherwise.
-/

/-- Position of the first match of `/[a-z][A-Z]/`: the code locates the match
with `indexOf(boundaryMatch[0])`, which coincides with the regexp's match
index because an earlier occurrence of the matched pair would itself be an
earlier regexp match. -/
def boundaryIdx? : JSStr → Option Nat
  | c1 :: c2 :: rest =>
    if isLowerAZ c1 && isUpperAZ c2 then some 0
    else (boundaryIdx? (c2 :: rest)).map (· + 1)
  | _ => none

/-- Model of `substring(a, b)` for `a ≤ b`: the characters at indices
`[a, b)` (as in every call site of `exactClean`). -/
def jsSub (l : JSStr) (a b : Nat) : JSStr := (l.take b).drop a

/-- First index `j ≥ i` holding whitespace (or the string's length): the
`while (... && !/\s/.test(cleaned[firstStringEnd])) firstStringEnd++` scan. -/
def tokenEnd (l : JSStr) (i : Nat) : Nat :=
  i + ((l.drop i).takeWhile (fun c => !jsSpace c)).length

/-- Start of the whitespace-delimited token containing index `p`: the
`while (stringStart > 0 && !/\s/.test(cleaned[stringStart - 1])) stringStart--`
scan. -/
def tokenStart (l : JSStr) (p : Nat) : Nat :=
  p - ((l.take p).reverse.takeWhile (fun c => !jsSpace c)).length

theorem tokenStart_le (l : JSStr) (p : Nat) : tokenStart l p ≤ p :=
  Nat.sub_le _ _

theorem tokenEnd_ge (l : JSStr) (i : Nat) : i ≤ tokenEnd l i :=
  Nat.le_add_right _ _

/-- Backward token collection of `exactClean`: starting from the boundary
position, walk tokens backwards (stepping two characters over the separating
whitespace), `unshift`-ing each, until the token equals
`firstStringAfterBoundary` or the string start is passed. -/
def collectBack (l : JSStr) (first : JSStr) (p : Nat) : List JSStr :=
  if jsSub l (tokenStart l p) (p + 1) = first then [jsSub l (tokenStart l p) (p + 1)]
  else if tokenStart l p < 2 then [jsSub l (tokenStart l p) (p + 1)]
  else collectBack l first (tokenStart l p - 2) ++ [jsSub l (tokenStart l p) (p + 1)]
termination_by p
decreasing_by
  have hs := tokenStart_le l p
  omega

/-- Forward replay of `exactClean`: match each collected token in turn from
the boundary onwards, exact equality for all but the last and substring
containment for the last; `some` returns the final `deletionEnd` when every
token matched (`stringsMatched === stringCount`). -/
def replay (l : JSStr) : List JSStr → Nat → Option Nat
  | [], d => some d
  | [e], d =>
    let dEnd := tokenEnd l d
    if containsSeq e (jsSub l d dEnd) then some (d + e.length) else none
  | e :: e2 :: rest, d =>
    let dEnd := tokenEnd l d
    if jsSub l d dEnd = e then replay l (e2 :: rest) (dEnd + 1) else none

/-- One pass of the `while (changed)` body of `exactClean`:
`none` when the pass sets nothing (`changed` stays false), otherwise the
string with the duplicated span `[boundary+1, deletionEnd)` deleted. -/
def stepClean (l : JSStr) : Option JSStr :=
  match boundaryIdx? l with
  | none => none
  | some b =>
    match replay l (collectBack l (jsSub l (b + 1) (tokenEnd l (b + 1))) b) (b + 1) with
    | none => none
    | some dEnd => some (l.take (b + 1) ++ l.drop dEnd)

/-- The `while (changed)` loop run for at most `fuel` passes.  `exactClean`
supplies a fuel exceeding the input length, which the termination theorem
shows is always enough. -/
def cleanLoop : Nat → JSStr → JSStr
  | 0, l => l
  | fuel + 1, l =>
    match stepClean l with
    | none => l
    | some l' => cleanLoop fuel l'

/-- Model of `exactClean(text)` on string input: the falsy guard returns an
empty string unchanged, otherwise the cleaning loop runs to quiescence. -/
def exactClean (l : JSStr) : JSStr :=
  if l.isEmpty then l else cleanLoop (l.length + 1) l

/-- Effect of one loop pass on the mutable `cleaned` variable (an unchanged
pass keeps the string). -/
def cleanStep (l : JSStr) : JSStr := (stepClean l).getD l

/-!
Termination, idempotence and non-expansion of the cleaning loop.
-/

theorem boundaryIdx?_lt : ∀ (l : JSStr) (b : Nat), boundaryIdx? l = some b → b + 1 < l.length := by
  intro l
  induction l with
  | nil => intro b h; simp [boundaryIdx?] at h
  | cons c1 rest ih =>
    intro b h
    cases rest with
    | nil => simp [boundaryIdx?] at h
    | cons c2 rest2 =>
      rw [boundaryIdx?] at h
      by_cases hb : (isLowerAZ c1 && isUpperAZ c2) = true
      · simp [hb] at h
        subst h
        simp only [List.length_cons]
        omega
      · simp [hb] at h
        obtain ⟨b', hb', rfl⟩ := h
        have := ih b' hb'
        simp only [List.length_cons] at this ⊢
        omega

theorem jsSub_length (l : JSStr) (a b : Nat) :
    (jsSub l a b).length = min b l.length - a := by
  simp [jsSub]

theorem collectBack_last (l f : JSStr) (p : Nat) :
    ∃ ys, collectBack l f p = ys ++ [jsSub l (tokenStart l p) (p + 1)] := by
  rw [collectBack]
  by_cases h1 : jsSub l (tokenStart l p) (p + 1) = f
  · exact ⟨[], by simp [h1]⟩
  · by_cases h2 : tokenStart l p < 2
    · exact ⟨[], by simp [h1, h2]⟩
    · exact ⟨collectBack l f (tokenStart l p - 2), by simp [h1, h2]⟩

theorem replay_mono (l : JSStr) :
    ∀ (ss : List JSStr) (d dEnd : Nat), replay l ss d = some dEnd → d ≤ dEnd := by
  intro ss
  induction ss with
  | nil => intro d dEnd h; simp [replay] at h; omega
  | cons e tail ih =>
    intro d dEnd h
    cases tail with
    | nil =>
      rw [replay] at h
      by_cases hc : containsSeq e (jsSub l d (tokenEnd l d)) = true
      · simp [hc] at h; omega
      · simp [hc] at h
    | cons e2 rest =>
      rw [replay] at h
      by_cases hc : jsSub l d (tokenEnd l d) = e
      · simp [hc] at h
        have h1 := ih (tokenEnd l d + 1) dEnd h
        have h2 := tokenEnd_ge l d
        omega
      · simp [hc] at h

theorem replay_pos (l : JSStr) :
    ∀ (ys : List JSStr) (e : JSStr) (d dEnd : Nat), e ≠ [] →
      replay l (ys ++ [e]) d = some dEnd → d < dEnd := by
  intro ys
  cases ys with
  | nil =>
    intro e d dEnd he h
    simp only [List.nil_append] at h
    rw [replay] at h
    by_cases hc : containsSeq e (jsSub l d (tokenEnd l d)) = true
    · simp [hc] at h
      have : 0 < e.length := List.length_pos.mpr he
      omega
    · simp [hc] at h
  | cons y ys' =>
    intro e d dEnd he h
    simp only [List.cons_append] at h
    rcases hys : ys' ++ [e] with _ | ⟨z, zs⟩
    · exact absurd hys (by simp)
    · rw [hys] at h
      rw [replay] at h
      by_cases hc : jsSub l d (tokenEnd l d) = y
      · simp [hc] at h
        rw [← hys] at h
        have h1 := replay_mono l (ys' ++ [e]) (tokenEnd l d + 1) dEnd h
        have h2 := tokenEnd_ge l d
        omega
      · simp [hc] at h

theorem stepClean_nil : stepClean [] = none := rfl

theorem step_shortens (l l' : JSStr) (h : stepClean l = some l') :
    l'.length < l.length := by
  unfold stepClean at h
  split at h
  · exact absurd h (by simp)
  · rename_i b hb
    split at h
    · exact absurd h (by simp)
    · rename_i dEnd hr
      simp only [Option.some.injEq] at h
      have hlt : b + 1 < l.length := boundaryIdx?_lt l b hb
      obtain ⟨ys, hys⟩ := collectBack_last l (jsSub l (b + 1) (tokenEnd l (b + 1))) b
      have hne : jsSub l (tokenStart l b) (b + 1) ≠ [] := by
        have hts := tokenStart_le l b
        have : (jsSub l (tokenStart l b) (b + 1)).length = min (b + 1) l.length - tokenStart l b :=
          jsSub_length l _ _
        intro hnil
        rw [hnil] at this
        simp at this
        omega
      rw [hys] at hr
      have hpos := replay_pos l ys _ (b + 1) dEnd hne hr
      rw [← h]
      simp
      omega

theorem cleanLoop_length : ∀ (n : Nat) (l : JSStr), (cleanLoop n l).length ≤ l.length := by
  intro n
  induction n with
  | zero => intro l; simp [cleanLoop]
  | succ m ih =>
    intro l
    rw [cleanLoop]
    rcases h : stepClean l with _ | l'
    · exact le_refl _
    · exact le_trans (ih l') (le_of_lt (step_shortens l l' h))

theorem stepClean_cleanLoop : ∀ (n : Nat) (l : JSStr), l.length < n →
    stepClean (cleanLoop n l) = none := by
  intro n
  induction n with
  | zero => intro l h; omega
  | succ m ih =>
    intro l h
    rw [cleanLoop]
    rcases hs : stepClean l with _ | l'
    · exact hs
    · exact ih l' (by have := step_shortens l l' hs; omega)

theorem cleanLoop_fuel : ∀ (n m : Nat) (l : JSStr), l.length < n → l.length < m →
    cleanLoop n l = cleanLoop m l := by
  intro n
  induction n with
  | zero => intro m l h; omega
  | succ n' ih =>
    intro m l hn hm
    rcases m with _ | m'
    · omega
    · rw [cleanLoop, cleanLoop]
      rcases hs : stepClean l with _ | l'
      · rfl
      · have hlt := step_shortens l l' hs
        exact ih m' l' (by omega) (by omega)

theorem cleanLoop_iterate : ∀ (N : Nat) (l : JSStr), l.length ≤ N →
    ∃ n, n ≤ l.length ∧ stepClean (cleanStep^[n] l) = none ∧
      cleanLoop (l.length + 1) l = cleanStep^[n] l := by
  intro N
  induction N with
  | zero =>
    intro l hl
    have hnil : l = [] := List.length_eq_zero.mp (Nat.le_zero.mp hl)
    subst hnil
    exact ⟨0, le_refl _, rfl, rfl⟩
  | succ N' ih =>
    intro l hl
    rcases hs : stepClean l with _ | l'
    · refine ⟨0, Nat.zero_le _, hs, ?_⟩
      rw [cleanLoop, hs]
      rfl
    · have hlt := step_shortens l l' hs
      obtain ⟨n', hn', hfix, hloop⟩ := ih l' (by omega)
      refine ⟨n' + 1, by omega, ?_, ?_⟩
      · rw [Function.iterate_succ_apply]
        have : cleanStep l = l' := by simp [cleanStep, hs]
        rw [this]
        exact hfix
      · rw [Function.iterate_succ_apply]
        have hcs : cleanStep l = l' := by simp [cleanStep, hs]
        rw [hcs, ← hloop]
        rw [cleanLoop, hs]
        exact cleanLoop_fuel l.length (l'.length + 1) l' (by omega) (by omega)

/-- Claim C1.  The `while (changed)` loop of `exactClean` terminates on every
string input: within at most `length s` passes of the loop body the state
reaches a string on which the pass makes no change (`changed` stays false,
the loop exits), and `exactClean` returns exactly that final state — even
though the implementation has no defensive iteration cap. -/
theorem exactClean_terminates (s : JSStr) :
    ∃ n, n ≤ s.length ∧ stepClean (cleanStep^[n] s) = none ∧
      exactClean s = cleanStep^[n] s := by
  obtain ⟨n, hn, hfix, hloop⟩ := cleanLoop_iterate s.length s (le_refl _)
  refine ⟨n, hn, hfix, ?_⟩
  rw [exactClean]
  by_cases he : s.isEmpty
  · have hse : s = [] := by cases s <;> simp_all
    subst hse
    have hn0 : n = 0 := by simpa using hn
    subst hn0
    rfl
  · simp only [he, if_false]
    exact hloop

/-- Claim C2.  The cleaner is idempotent: running `exactClean` on its own
output returns the output unchanged. -/
theorem exactClean_idempotent (s : JSStr) :
    exactClean (exactClean s) = exactClean s := by
  have hfix : stepClean (exactClean s) = none := by
    by_cases he : s.isEmpty
    · have hse : s = [] := by cases s <;> simp_all
      subst hse
      rfl
    · rw [exactClean, if_neg (by simp [he])]
      exact stepClean_cleanLoop (s.length + 1) s (by omega)
  conv_lhs => rw [exactClean]
  by_cases he : (exactClean s).isEmpty
  · simp [he]
  · rw [if_neg (by simp [he]), cleanLoop, hfix]

/-- Claim C10.  The cleaner never lengthens its input: every pass of the loop
only deletes a span of characters, so the result is at most as long as the
input. -/
theorem exactClean_length_le (s : JSStr) :
    (exactClean s).length ≤ s.length := by
  rw [exactClean]
  by_cases he : s.isEmpty
  · simp [he]
  · simp only [he, if_false]
    exact cleanLoop_length (s.length + 1) s

/-!
DOM model.  Parsed HTML documents are trees of element nodes (tag name, id
attribute, class list, children) and text nodes; `textContent` concatenates
the text descendants, and the query helpers mirror `querySelector`,
`querySelectorAll` (pre-order document order over element descendants),
`nextElementSibling` chains and `closest` ancestor walks.
-/

/-- A DOM node: an element (tag, id, classes, children) or a text node. -/
inductive Dom where
  | elem (tag : JSStr) (idAttr : JSStr) (classes : List JSStr) (children : List Dom)
  | txt (s : JSStr)

/-- Whether a node is an element (text nodes are invisible to the query API). -/
def isElem : Dom → Bool
  | .elem .. => true
  | .txt _ => false

/-- Tag name of an element (empty for text nodes). -/
def tagOf : Dom → JSStr
  | .elem t _ _ _ => t
  | .txt _ => []

/-- Value of the id attribute (empty when absent). -/
def idOf : Dom → JSStr
  | .elem _ i _ _ => i
  | .txt _ => []

/-- Whether an element's class list contains the given class
(`classList.contains` / a `.cls` selector). -/
def hasClass (c : JSStr) : Dom → Bool
  | .elem _ _ cls _ => cls.contains c
  | .txt _ => false

mutual
/-- Model of `textContent`: the concatenated text descendants of a node. -/
def textContent : Dom → JSStr
  | .txt s => s
  | .elem _ _ _ cs => textContentList cs

def textContentList : List Dom → JSStr
  | [] => []
  | c :: cs => textContent c ++ textContentList cs
end

mutual
/-- All element descendants of a node in pre-order document order (the node
itself excluded), as enumerated by `querySelectorAll`. -/
def descs : Dom → List Dom
  | .txt _ => []
  | .elem _ _ _ cs => descsList cs

def descsList : List Dom → List Dom
  | [] => []
  | c :: rest => (if isElem c then [c] else []) ++ descs c ++ descsList rest
end

/-- Model of `querySelector` for a node predicate: the first element
descendant, in document order, satisfying it. -/
def qSel (p : Dom → Bool) (d : Dom) : Option Dom := (descs d).find? p

mutual
/-- All element descendants paired with their chains of following element
siblings (the `nextElementSibling` walk starts from the paired list's head). -/
def dws : Dom → List (Dom × List Dom)
  | .txt _ => []
  | .elem _ _ _ cs => dwsList cs

def dwsList : List Dom → List (Dom × List Dom)
  | [] => []
  | c :: rest =>
    (if isElem c then [(c, rest.filter isElem)] else []) ++ dws c ++ dwsList rest
end

/-!
Decklist extraction (`extractDecklist` of the strict upgrade-guide
extractor).
-/

/-- A `{quantity, name}` entry of a decklist section. -/
structure DeckCard where
  quantity : Nat
  name : JSStr
deriving DecidableEq, Repr

/-- A named decklist section with its cards. -/
structure DeckSection where
  name : JSStr
  cards : List DeckCard
deriving DecidableEq, Repr

/-- The structured decklist block (`{type:'decklist', title, sections}`). -/
structure Decklist where
  title : JSStr
  sections : List DeckSection
deriving DecidableEq, Repr

/-- Backtracking search of `\s+(.+)` after the digits of `/^(\d+)\s+(.+)/`:
the greedy whitespace run gives back characters until `.` (which matches
anything but a line terminator) can take at least one character. -/
def dotSearch (rest : JSStr) : Nat → Option JSStr
  | 0 => none
  | j + 1 =>
    match rest.drop (j + 1) with
    | [] => dotSearch rest j
    | c :: cs =>
      if jsLineTerm c then dotSearch rest j
      else some ((c :: cs).takeWhile (fun c => !jsLineTerm c))

/-- Model of `text.match(/^(\d+)\s+(.+)/)`: the digit capture and the name
capture, or `none` when the pattern fails. -/
def matchQtyName (t : JSStr) : Option (JSStr × JSStr) :=
  let ds := t.takeWhile isDigitC
  if ds.isEmpty then none
  else
    let rest := t.drop ds.length
    match dotSearch rest (rest.takeWhile jsSpace).length with
    | none => none
    | some nm => some (ds, nm)

/-- Model of `extractDecklist(deckElement)` (strict variant, the only
`extractDecklist` in the source): title from the first `h4` descendant
(missing title throws a parse error), sections from the `h4` headers inside
the first `.Deck_columns__PVSg8` descendant (no such descendant: no
sections), each section's cards from the first following `ul` element
sibling of its header, keeping only the `<quantity><space><name>` items. -/
def extractDecklist (deckElement : Dom) : Except JSStr Decklist :=
  match qSel (fun d => tagOf d == js "h4") deckElement with
  | none => .error (js "Deck title not found")
  | some deckTitle =>
    match qSel (hasClass (js "Deck_columns__PVSg8")) deckElement with
    | none => .ok ⟨exactClean (textContent deckTitle), []⟩
    | some deckColumns =>
      .ok ⟨exactClean (textContent deckTitle),
        ((dws deckColumns).filter (fun hs => tagOf hs.1 == js "h4")).filterMap (fun hs =>
          if (jsTrim (textContent hs.1)).isEmpty then none
          else some ⟨exactClean (jsTrim (textContent hs.1)),
            match hs.2.find? (fun n => tagOf n == js "ul") with
            | none => []
            | some ul =>
              ((descs ul).filter (fun n => tagOf n == js "li")).filterMap (fun li =>
                match matchQtyName (textContent li) with
                | none => none
                | some (ds, nm) => some ⟨digitsToNat ds, exactClean nm⟩)⟩)⟩

instance {ε α : Type} [DecidableEq ε] [DecidableEq α] : DecidableEq (Except ε α) :=
  fun x y =>
    match x, y with
    | .ok a, .ok b => if h : a = b then isTrue (by rw [h]) else isFalse (by simp [h])
    | .error a, .error b => if h : a = b then isTrue (by rw [h]) else isFalse (by simp [h])
    | .ok _, .error _ => isFalse (by simp)
    | .error _, .ok _ => isFalse (by simp)

/-- The decklist element of claim C4's example:
`<h4>Deck</h4><h5>Lands</h5><ul><li>1 Command Tower</li><li>2 Forest</li></ul>`. -/
def c4ClaimInput : Dom :=
  .elem (js "div") [] [js "edhrecp__deck"] [
    .elem (js "h4") [] [] [.txt (js "Deck")],
    .elem (js "h5") [] [] [.txt (js "Lands")],
    .elem (js "ul") [] [] [
      .elem (js "li") [] [] [.txt (js "1 Command Tower")],
      .elem (js "li") [] [] [.txt (js "2 Forest")]]]

/-- The output claim C4 asserts for that element. -/
def c4ClaimedResult : Decklist :=
  ⟨js "Deck", [⟨js "Lands", [⟨1, js "Command Tower"⟩, ⟨2, js "Forest"⟩]⟩]⟩

/-- The same content with the section header and list wrapped in the
`.Deck_columns__PVSg8` column container the code actually looks for, the
section named by an `h4` (not `h5`) header. -/
def c4AmendedInput : Dom :=
  .elem (js "div") [] [js "edhrecp__deck"] [
    .elem (js "h4") [] [] [.txt (js "Deck")],
    .elem (js "div") [] [js "Deck_columns__PVSg8"] [
      .elem (js "h4") [] [] [.txt (js "Lands")],
      .elem (js "ul") [] [] [
        .elem (js "li") [] [] [.txt (js "1 Command Tower")],
        .elem (js "li") [] [] [.txt (js "2 Forest")]]]]

/-- Claim C4, counterexample.  On the claimed input, `extractDecklist` takes
the title from the first `h4` but finds no `.Deck_columns__PVSg8` container,
so it returns a decklist with NO sections: the `h5` heading does not name a
section and the claimed output is not produced. -/
theorem extractDecklist_claim_false :
    extractDecklist c4ClaimInput = .ok ⟨js "Deck", []⟩ ∧
      extractDecklist c4ClaimInput ≠ .ok c4ClaimedResult := by
  constructor
  · decide
  · decide

/-- Claim C4, amended.  The title comes from the first heading-4 inside the
decklist element; each heading-4 inside the `.Deck_columns__PVSg8` column
container names a section, whose cards come from the next following `ul`
element sibling, each list item matching a leading-integer pattern becoming
a `{quantity, name}` card: on the column-wrapped input this produces exactly
the claimed structure. -/
theorem extractDecklist_amended :
    extractDecklist c4AmendedInput = .ok c4ClaimedResult := by
  decide

/-!
The card-name heuristic `looksLikeCardName` (legacy upgrade-guide
extractor; `MAX_CARDNAME_LENGTH` is 100).
-/

/-- The stop words of the heuristic's whole-word exclusion pattern
`/\b(deck|card|magic|the|a|an|and|or|but|in|on|at|to|for|of)\b/i`. -/
def stopWords : List JSStr :=
  [js "deck", js "card", js "magic", js "the", js "a", js "an", js "and",
   js "or", js "but", js "in", js "on", js "at", js "to", js "for", js "of"]

/-- Case-insensitive match of word `w` at the head of `s` with a right-hand
word boundary after it. -/
def matchesWordAt (w s : JSStr) : Bool :=
  toLowerJS (s.take w.length) == w &&
    (match s.drop w.length with
     | [] => true
     | c :: _ => !isWordC c)

/-- Scan for a whole-word, case-insensitive occurrence of `w` (the word
patterns all start and end with letters, so `\b` reduces to the neighbours
not being word characters; `prev` is the character before the scan point). -/
def wordScan (w : JSStr) : Option Char → JSStr → Bool
  | prev, s =>
    (((match prev with | none => true | some c => !isWordC c)) && matchesWordAt w s) ||
      match s with
      | [] => false
      | c :: rest => wordScan w (some c) rest

/-- Model of `looksLikeCardName(text)`: length in `[2, 100]`, no leading
digit or lower-case letter, and none of the exclusion patterns (ellipsis,
whole-word stop word, leading `http`, all digits). -/
def looksLikeCardName (t : JSStr) : Bool :=
  if t.length < 2 || t.length > 100 then false
  else if (match t with | c :: _ => isDigitC c | [] => false) then false
  else if (match t with | c :: _ => isLowerAZ c | [] => false) then false
  else
    !(containsSeq (js "...") t ||
      stopWords.any (fun w => wordScan w none t) ||
      (js "http").isPrefixOf t ||
      t.all isDigitC)

/-- Claim C8.  The heuristic rejects "the Rock", "http://example.com", "42"
and "a deck of cards...", and accepts "Sol Ring" and
"Ghalta, Primal Hunger". -/
theorem looksLikeCardName_examples :
    looksLikeCardName (js "the Rock") = false ∧
    looksLikeCardName (js "http://example.com") = false ∧
    looksLikeCardName (js "42") = false ∧
    looksLikeCardName (js "a deck of cards...") = false ∧
    looksLikeCardName (js "Sol Ring") = true ∧
    looksLikeCardName (js "Ghalta, Primal Hunger") = true := by
  decide

/-!
Commander card statistics (`EDHRECExtractor.parseHTML`).  The DOM phase uses
the model above; `closest` needs each container's self-inclusive ancestor
chain, produced by `dwa`.  `extractDeckCount` runs regexp patterns over the
raw HTML text and is passed in as its result (`deckCount?`), the only way
its value feeds this function.
-/

mutual
/-- Traversal worker: all element descendants of the listed children, each
paired with its self-inclusive ancestor chain (nearest first); `anc` is the
chain of the children's parent. -/
def dwaList (anc : List Dom) : List Dom → List (Dom × List Dom)
  | [] => []
  | c :: rest =>
    (if isElem c then [(c, c :: anc)] else []) ++ dwaNode (c :: anc) c ++ dwaList anc rest

def dwaNode (anc : List Dom) : Dom → List (Dom × List Dom)
  | .txt _ => []
  | .elem _ _ _ cs => dwaList anc cs
end

/-- All element descendants of a document with their `closest` chains. -/
def dwa (doc : Dom) : List (Dom × List Dom) := dwaNode [doc] doc

/-- Single camel-case id transform of `parseHTML`'s section fallback:
`id.replace(/([A-Z])/g, ' $1').replace(/^./, s => s.toUpperCase())`. -/
def camelToTitle (l : JSStr) : JSStr :=
  match l.foldr (fun c acc => (if isUpperAZ c then [' ', c] else [c]) ++ acc) [] with
  | [] => []
  | c :: rest => (if isLowerAZ c then Char.ofNat (c.toNat - 32) else c) :: rest

/-- One `{name, inclusion}` record of the commander-stats section map. -/
structure StatCard where
  name : JSStr
  inclusion : JSStr
deriving DecidableEq, Repr

/-- A value of the section map: an array of cards, or the raw string stored
under the synthetic `_deckCount` key. -/
inductive SectionVal where
  | cards (cs : List StatCard)
  | str (s : JSStr)
deriving DecidableEq, Repr

/-- Model of `sections[sectionName].push({name, inclusion})` guarded by the
`isDuplicate` check, creating the section on first use (object property
insertion order). -/
def addStatCard (secs : List (JSStr × List StatCard)) (sec : JSStr) (card : StatCard) :
    List (JSStr × List StatCard) :=
  match secs with
  | [] => [(sec, [card])]
  | (k, cs) :: rest =>
    if k = sec then
      if cs.any (fun c => c.name == card.name) then (k, cs) :: rest
      else (k, cs ++ [card]) :: rest
    else (k, cs) :: addStatCard rest sec card

/-- Numeric sort key `parseFloat(card.inclusion) || 0`. -/
def pctOf (s : JSStr) : ℚ := (jsParseFloat s).getD 0

/-- Comparator order of `(a, b) => bPct - aPct`: `a` may precede `b` exactly
when `a`'s percentage is at least `b`'s (descending). -/
def inclusionGE (a b : StatCard) : Prop := pctOf b.inclusion ≤ pctOf a.inclusion

instance : DecidableRel inclusionGE := fun a b => by
  unfold inclusionGE; infer_instance

instance : IsTotal StatCard inclusionGE := ⟨fun _ _ => le_total _ _⟩

instance : IsTrans StatCard inclusionGE := ⟨fun _ _ _ h1 h2 => le_trans h2 h1⟩

/-- Model of `Array.prototype.sort` with the descending-percentage
comparator: a stable sort producing an `inclusionGE`-sorted permutation. -/
def sortSection (cs : List StatCard) : List StatCard := List.insertionSort inclusionGE cs

/-- Model of `parseHTML(htmlContent)`: collect every `.Card_container__Ng56K`
element, read its card name, inclusion stat (kept only when the label
mentions inclusion/deck) and enclosing section (header of the closest
`.Grid_cardlist__AXXsz`, else its camel-case id, else "Unknown"), keep
entries whose inclusion has a `%` and no `$`, deduplicate per section, store
the deck count under `_deckCount`, then sort each array-valued section. -/
def parseHTML (doc : Dom) (deckCount? : Option JSStr) : List (JSStr × SectionVal) :=
  let base := ((dwa doc).filter (fun cc => hasClass (js "Card_container__Ng56K") cc.1)).foldl
    (fun acc cc =>
      match qSel (hasClass (js "Card_name__Mpa7S")) cc.1 with
      | none => acc
      | some nameEl =>
        let cardName := jsTrim (textContent nameEl)
        if cardName.isEmpty || cardName.length < 2 then acc
        else
          let inclusion :=
            match qSel (hasClass (js "CardLabel_container__3M9Zu")) cc.1 with
            | none => []
            | some lblC =>
              match qSel (hasClass (js "CardLabel_line__iQ3O3")) lblC with
              | none => []
              | some line =>
                match qSel (hasClass (js "CardLabel_stat__galuW")) line,
                      qSel (hasClass (js "CardLabel_label__iAM7T")) line with
                | some stat, some lab =>
                  if containsSeq (js "inclusion") (toLowerJS (textContent lab)) ||
                      containsSeq (js "deck") (toLowerJS (textContent lab)) then
                    jsTrim (textContent stat)
                  else []
                | _, _ => []
          let sectionName :=
            match cc.2.find? (hasClass (js "Grid_cardlist__AXXsz")) with
            | none => js "Unknown"
            | some cl =>
              match qSel (hasClass (js "Grid_header__iAPM8")) cl with
              | some h => jsTrim (textContent h)
              | none => if (idOf cl).isEmpty then js "Unknown" else camelToTitle (idOf cl)
          if !inclusion.isEmpty && !inclusion.contains '$' && inclusion.contains '%' then
            addStatCard acc sectionName ⟨cardName, inclusion⟩
          else acc)
    []
  let withDeck := (base.map (fun kc => (kc.1, SectionVal.cards kc.2))) ++
    (match deckCount? with
     | some c => [(js "_deckCount", SectionVal.str c)]
     | none => [])
  withDeck.map (fun kv =>
    match kv.2 with
    | SectionVal.cards cs => (kv.1, SectionVal.cards (sortSection cs))
    | SectionVal.str s => (kv.1, SectionVal.str s))

/-- A card-stat container element with the given name and inclusion stat. -/
def statContainer (nm pct : String) : Dom :=
  .elem (js "div") [] [js "Card_container__Ng56K"] [
    .elem (js "span") [] [js "Card_name__Mpa7S"] [.txt (js nm)],
    .elem (js "div") [] [js "CardLabel_container__3M9Zu"] [
      .elem (js "div") [] [js "CardLabel_line__iQ3O3"] [
        .elem (js "div") [] [js "CardLabel_stat__galuW"] [.txt (js pct)],
        .elem (js "div") [] [js "CardLabel_label__iAM7T"] [.txt (js "inclusion")]]]]

/-- A document with a single section holding inclusion values
12%, 68%, 5% in that source order. -/
def c7Doc : Dom :=
  .elem (js "body") [] [] [
    .elem (js "div") [] [js "Grid_cardlist__AXXsz"] [
      .elem (js "div") [] [js "Grid_header__iAPM8"] [.txt (js "High Synergy Cards")],
      statContainer "Card A" "12%",
      statContainer "Card B" "68%",
      statContainer "Card C" "5%"]]

/-- Claim C7.  Every array-valued section of the map `parseHTML` returns is
sorted in descending order of numeric inclusion percentage, and on a section
holding inclusions 12%, 68%, 5% the output order is 68%, 12%, 5%. -/
theorem parseHTML_sections_sorted :
    (∀ (doc : Dom) (dc : Option JSStr) (k : JSStr) (cs : List StatCard),
        (k, SectionVal.cards cs) ∈ parseHTML doc dc → cs.Sorted inclusionGE) ∧
      parseHTML c7Doc none =
        [(js "High Synergy Cards", SectionVal.cards
          [⟨js "Card B", js "68%"⟩, ⟨js "Card A", js "12%"⟩, ⟨js "Card C", js "5%"⟩])] := by
  constructor
  · intro doc dc k cs hmem
    simp only [parseHTML] at hmem
    rw [List.mem_map] at hmem
    obtain ⟨⟨k', v⟩, _, heq⟩ := hmem
    cases v with
    | cards cs0 =>
      simp only [Prod.mk.injEq, SectionVal.cards.injEq] at heq
      rw [← heq.2]
      exact List.sorted_insertionSort inclusionGE cs0
    | str s => simp at heq
  · decide

/-- Claim C7, witness: the sortedness statement applied to the concrete
document, with its membership hypothesis discharged by evaluation. -/
theorem parseHTML_sections_sorted_witness :
    List.Sorted inclusionGE
      [⟨js "Card B", js "68%"⟩, ⟨js "Card A", js "12%"⟩, ⟨js "Card C", js "5%"⟩] :=
  parseHTML_sections_sorted.1 c7Doc none (js "High Synergy Cards") _ (by decide)

/-!
Export manager: the consumer-side cutoff filter `filterCardsByInclusion`.
-/

/-- First match of `/(\d+(?:\.\d+)?)%/` starting at the head of `l`: the
captured decimal handed to `parseFloat`, or `none` when the digits, optional
fraction and `%` do not line up here. -/
def matchPctAt (l : JSStr) : Option ℚ :=
  let d := l.takeWhile isDigitC
  if d.isEmpty then none
  else
    match l.drop d.length with
    | '.' :: r2 =>
      let fr := r2.takeWhile isDigitC
      if fr.isEmpty then none
      else
        match r2.drop fr.length with
        | '%' :: _ => jsParseFloat (d ++ '.' :: fr)
        | _ => none
    | '%' :: _ => jsParseFloat d
    | _ => none

/-- Scanning search of `/(\d+(?:\.\d+)?)%/` over the whole string (the
unanchored `match`), yielding the first match's numeric capture. -/
def findPct : JSStr → Option ℚ
  | [] => none
  | c :: rest =>
    match matchPctAt (c :: rest) with
    | some v => some v
    | none => findPct rest

/-- The filter predicate of `filterCardsByInclusion`: keep cards without a
percentage pattern, otherwise keep exactly those at or above the cutoff. -/
def keepCard (cutoff : ℚ) (c : StatCard) : Bool :=
  match findPct c.inclusion with
  | none => true
  | some v => cutoff ≤ v

/-- Whether a section value is an array (`Array.isArray` shape check used in
well-formedness statements). -/
def isCardsB : SectionVal → Bool
  | .cards _ => true
  | .str _ => false

/-- Model of `filterCardsByInclusion(cardData, cutoffPercent)`: build a new
map, carrying every underscore-prefixed entry over as is and replacing every
other section by its filtered copy; `none` models the `TypeError` a
non-array, non-underscore value would raise at `cards.filter`. -/
def filterCardsByInclusion (cardData : List (JSStr × SectionVal)) (cutoff : ℚ) :
    Option (List (JSStr × SectionVal)) :=
  cardData.mapM (fun kv =>
    if (js "_").isPrefixOf kv.1 then some kv
    else
      match kv.2 with
      | SectionVal.cards cs => some (kv.1, SectionVal.cards (cs.filter (keepCard cutoff)))
      | SectionVal.str _ => none)

/-- Claim C9.  On every well-formed section map (underscore entries aside,
all values are card arrays) and every cutoff, the filter succeeds and
returns a fresh map of the same length in which every underscore-prefixed
entry (such as `_deckCount`) is carried over unchanged, every other section
is exactly the `keepCard` filtering of the corresponding input section, and
every card record of the output is one of the input's card records — the
input map itself is a parameter of a pure function and is never mutated. -/
theorem filterCardsByInclusion_pure :
    ∀ (cardData : List (JSStr × SectionVal)) (cutoff : ℚ),
      (∀ kv ∈ cardData, (js "_").isPrefixOf kv.1 = true ∨ isCardsB kv.2 = true) →
      ∃ out, filterCardsByInclusion cardData cutoff = some out ∧
        out.length = cardData.length ∧
        ∀ p ∈ out.zip cardData,
          p.1.1 = p.2.1 ∧
          ((js "_").isPrefixOf p.2.1 = true → p.1 = p.2) ∧
          (∀ cs, (js "_").isPrefixOf p.2.1 = false → p.2.2 = SectionVal.cards cs →
            p.1.2 = SectionVal.cards (cs.filter (keepCard cutoff))) ∧
          (∀ cs cs', p.2.2 = SectionVal.cards cs → p.1.2 = SectionVal.cards cs' →
            ∀ c ∈ cs', c ∈ cs) := by
  intro cardData cutoff
  induction cardData with
  | nil => intro _; exact ⟨[], rfl, rfl, by simp⟩
  | cons kv rest ih =>
    intro hwf
    obtain ⟨out, hout, hlen, hzip⟩ := ih (fun x hx => hwf x (List.mem_cons_of_mem _ hx))
    by_cases hu : (js "_").isPrefixOf kv.1 = true
    · refine ⟨kv :: out, ?_, by simp [hlen], ?_⟩
      · rw [filterCardsByInclusion, List.mapM_cons]
        rw [filterCardsByInclusion] at hout
        simp only [hu, if_pos, hout]
        rfl
      · intro p hp
        rw [List.zip_cons_cons, List.mem_cons] at hp
        rcases hp with rfl | hp
        · refine ⟨rfl, fun _ => rfl, fun cs hfalse _ => absurd hu (by simp [hfalse]), ?_⟩
          intro cs cs' h1 h2 c hc
          rw [h1] at h2
          cases h2
          exact hc
        · exact hzip p hp
    · rcases hwf kv (List.mem_cons_self _ _) with hu' | hcards
      · exact absurd hu' hu
      · rcases hkv : kv.2 with cs | s
        · refine ⟨(kv.1, SectionVal.cards (cs.filter (keepCard cutoff))) :: out, ?_,
            by simp [hlen], ?_⟩
          · rw [filterCardsByInclusion, List.mapM_cons]
            rw [filterCardsByInclusion] at hout
            simp only [hu, if_neg, hkv, hout]
            rfl
          · intro p hp
            rw [List.zip_cons_cons, List.mem_cons] at hp
            rcases hp with rfl | hp
            · refine ⟨rfl, fun h => absurd h hu, ?_, ?_⟩
              · intro cs0 _ h0
                rw [hkv] at h0
                cases h0
                rfl
              · intro cs0 cs0' h1 h2 c hc
                rw [hkv] at h1
                cases h1
                simp only [SectionVal.cards.injEq] at h2
                rw [← h2] at hc
                exact (List.mem_filter.mp hc).1
            · exact hzip p hp
        · rw [hkv] at hcards
          simp [isCardsB] at hcards

/-- A concrete well-formed commander map: the synthetic deck count plus one
card section. -/
def c9Data : List (JSStr × SectionVal) :=
  [(js "_deckCount", SectionVal.str (js "8,557 decks")),
   (js "Top Cards", SectionVal.cards
     [⟨js "Sol Ring", js "68%"⟩, ⟨js "Arcane Signet", js "5%"⟩])]

/-- Claim C9, witness: the purity statement applied to the concrete map and
cutoff 10, with the well-formedness hypothesis discharged by evaluation. -/
theorem filterCardsByInclusion_pure_witness :
    ∃ out, filterCardsByInclusion c9Data 10 = some out ∧
      out.length = c9Data.length ∧
      ∀ p ∈ out.zip c9Data,
        p.1.1 = p.2.1 ∧
        ((js "_").isPrefixOf p.2.1 = true → p.1 = p.2) ∧
        (∀ cs, (js "_").isPrefixOf p.2.1 = false → p.2.2 = SectionVal.cards cs →
          p.1.2 = SectionVal.cards (cs.filter (keepCard 10))) ∧
        (∀ cs cs', p.2.2 = SectionVal.cards cs → p.1.2 = SectionVal.cards cs' →
          ∀ c ∈ cs', c ∈ cs) :=
  filterCardsByInclusion_pure c9Data 10 (by decide)

/-!
Export manager: the text-list export (`exportToText`, the cited variant with
the mojibake bullet prefix) and import (`parseCardList`, identical in all
variants).  The `new Date().toLocaleDateString()` stamp is an input here.
-/

/-- The bullet prefix of every exported card line (the literal three
characters that variant writes before each card name). -/
def bulletPrefix : JSStr := js "â€¢ "

/-- Decimal rendering of an array length for the section header line. -/
def natToJS (n : Nat) : JSStr := js (Nat.repr n)

/-- Model of `exportToText(cardData)`: the header line, the dating line (with
its embedded newline), then per section a `name (n cards)` line, a `=`
separator row of length `name.length + 10`, one bullet line per card and a
blank line, all joined with newlines. -/
def exportToText (dateStr : JSStr) (cardData : List (JSStr × List StatCard)) : JSStr :=
  List.intercalate ['\n'] (
    [js "EDHREC Card List", js "Generated on: " ++ dateStr ++ ['\n']] ++
    cardData.foldr (fun sec acc =>
      [sec.1 ++ js " (" ++ natToJS sec.2.length ++ js " cards)",
       List.replicate (sec.1.length + 10) '='] ++
      sec.2.map (fun c => bulletPrefix ++ c.name ++ js " - " ++ c.inclusion) ++
      [[]] ++ acc) [])

/-- Model of `cardName.replace(/^\d+x\s/, '')`: strip a leading quantity of
the form digits, `x`, one whitespace character. -/
def stripQty (nm : JSStr) : JSStr :=
  let ds := nm.takeWhile isDigitC
  if ds.isEmpty then nm
  else
    match nm.drop ds.length with
    | 'x' :: c :: rest => if jsSpace c then rest else nm
    | _ => nm

/-- Lazy bracket content: the characters up to the first `]`, failing on a
line terminator (which `.` cannot match) or a missing `]`. -/
def upToClose : JSStr → Option (JSStr × JSStr)
  | [] => none
  | ']' :: t => some ([], t)
  | c :: t =>
    if jsLineTerm c then none
    else (upToClose t).map (fun p => (c :: p.1, p.2))

/-- Model of `cardName.match(/\[(.*?)\]\s*(.*)/)`: the unanchored search
finds the first `[` with a matching `]`, captures the lazy bracket content
and, after optional whitespace, the rest of the line; any text before the
`[` is outside both captures and is dropped by the caller. -/
def bracketSplit : JSStr → Option (JSStr × JSStr)
  | [] => none
  | '[' :: rest =>
    match upToClose rest with
    | some (ins, aft) =>
      some (ins, (aft.dropWhile jsSpace).takeWhile (fun c => !jsLineTerm c))
    | none => bracketSplit rest
  | _ :: rest => bracketSplit rest

/-- Line loop of `parseCardList`: skip blank/comment lines, switch the
current section on `name (...)` lines, split `name - inclusion` on every
`-`, strip a quantity prefix, honour `[inclusion] name` lines, and emit
`(name, inclusion-or-N/A, section)` records. -/
def parseCardListLines : List JSStr → JSStr → List (JSStr × JSStr × JSStr)
  | [], _ => []
  | line :: rest, curSec =>
    let t := jsTrim line
    if t.isEmpty || (js "//").isPrefixOf t || (js "#").isPrefixOf t then
      parseCardListLines rest curSec
    else if t.getLast? = some ')' && t.contains '(' then
      parseCardListLines rest (jsTrim ((splitOnChar '(' t).headI))
    else
      let nmInc1 : JSStr × JSStr :=
        if t.contains '-' then
          let parts := (splitOnChar '-' t).map jsTrim
          if 2 ≤ parts.length then
            (jsTrim (List.intercalate ['-'] parts.dropLast),
             if (parts.getLastD []).contains '%' then parts.getLastD [] else [])
          else (t, [])
        else (t, [])
      let nm2 := stripQty nmInc1.1
      let nmInc3 : JSStr × JSStr :=
        match bracketSplit nm2 with
        | some (ins, aft) => (aft, ins)
        | none => (nm2, nmInc1.2)
      if nmInc3.1.isEmpty then parseCardListLines rest curSec
      else (nmInc3.1, (if nmInc3.2.isEmpty then js "N/A" else nmInc3.2), curSec) ::
        parseCardListLines rest curSec

/-- Model of `sections[card.section].push(...)` of the grouping pass (no
deduplication here, unlike the extractor's `addStatCard`). -/
def pushCard (secs : List (JSStr × List StatCard)) (sec : JSStr) (card : StatCard) :
    List (JSStr × List StatCard) :=
  match secs with
  | [] => [(sec, [card])]
  | (k, cs) :: rest =>
    if k = sec then (k, cs ++ [card]) :: rest
    else (k, cs) :: pushCard rest sec card

/-- Model of `parseCardList(textContent)`: parse the lines, then group the
records by section in first-appearance order. -/
def parseCardList (textContent : JSStr) : List (JSStr × List StatCard) :=
  (parseCardListLines (splitOnChar '\n' textContent) (js "Imported Cards")).foldl
    (fun secs c => pushCard secs c.2.2 ⟨c.1, c.2.1⟩) []

/-- A concrete well-formed section map for the round-trip claim. -/
def c5Data : List (JSStr × List StatCard) :=
  [(js "Lands", [⟨js "Command Tower", js "68%"⟩])]

/-- A fixed date stamp standing for `new Date().toLocaleDateString()`. -/
def c5Date : JSStr := js "1/1/2020"

/-- Claim C5, counterexample.  The round trip fails on the well-formed map
`{Lands: [{Command Tower, 68%}]}`: re-exporting its re-import does not
reproduce the exported text. -/
theorem textRoundTrip_claim_false :
    exportToText c5Date (parseCardList (exportToText c5Date c5Data)) ≠
      exportToText c5Date c5Data := by
  decide

/-- Claim C5, amended.  The text format does not round-trip: `parseCardList`
treats the export's header and dating lines as cards of a spurious
"Imported Cards" section, turns the `=` separator row into a card of the
real section, and keeps the bullet prefix inside each card name — section
names and inclusion values survive, card names do not, so
`export(import(export(data)))` differs from `export(data)` already on a
one-card map. -/
theorem textRoundTrip_amended :
    parseCardList (exportToText c5Date c5Data) =
      [(js "Imported Cards",
        [⟨js "EDHREC Card List", js "N/A"⟩, ⟨js "Generated on: 1/1/2020", js "N/A"⟩]),
       (js "Lands",
        [⟨js "===============", js "N/A"⟩, ⟨js "â€¢ Command Tower", js "68%"⟩])] ∧
      exportToText c5Date (parseCardList (exportToText c5Date c5Data)) ≠
        exportToText c5Date c5Data := by
  exact ⟨by decide, by decide⟩

/-!
Extraction entry points.  The network fetch and the `DOMParser` are external
capabilities, passed in as the fetch outcome and the parse function; the
entry points' own control flow (validation, typed errors, catch handlers) is
modelled exactly.  The content-block union covers the block shapes of both
upgrade-guide variants (the legacy variant's paragraphs carry no mentioned
cards: the sample guide uses an empty list there).
-/

/-- The typed error classes (`EDHRECFetchError`, `EDHRECParseError`,
`EDHRECContentError`) plus plain `Error` for the legacy variant's untyped
throws. -/
inductive ExtractErr where
  | fetchErr (msg : JSStr)
  | parseErr (msg : JSStr)
  | contentErr (msg : JSStr)
  | jsErr (msg : JSStr)
deriving DecidableEq, Repr

/-- A classified content block of an upgrade guide. -/
inductive ContentBlock where
  | header (level : Nat) (text : JSStr)
  | paragraph (text : JSStr) (mentionedCards : List JSStr) (hasCards : Bool)
  | cardlist (isOrdered : Bool) (items : List JSStr)
  | individualCard (cardName : JSStr)
  | decklistB (d : Decklist)
deriving DecidableEq, Repr

/-- The structured guide result (`{title, author, date, contentBlocks,
upgradeCards}`; the legacy variant carries no upgrade cards: empty list). -/
structure GuideData where
  title : JSStr
  author : JSStr
  date : JSStr
  contentBlocks : List ContentBlock
  upgradeCards : List JSStr
deriving DecidableEq, Repr

/-- Model of the strict `extractUpgradeGuide(url)`: empty fetched text is a
fetch error, parse errors propagate, a parsed guide with no content blocks
is an `EDHRECContentError`, and the catch handler re-throws every error
("Propagate error - NO FALLBACKS"). -/
def extractUpgradeGuideStrict (fetched : Except ExtractErr JSStr)
    (parse : JSStr → Except ExtractErr GuideData) : Except ExtractErr GuideData :=
  match fetched with
  | .error e => .error e
  | .ok html =>
    if html.isEmpty then .error (.fetchErr (js "No HTML content received"))
    else
      match parse html with
      | .error e => .error e
      | .ok gd =>
        if gd.contentBlocks.isEmpty then
          .error (.contentErr (js "No content blocks found after parsing"))
        else .ok gd

/-- Model of `getSampleUpgradeGuide()`: the hard-coded fallback guide. -/
def getSampleUpgradeGuide : GuideData :=
  ⟨js "Veloci-Ramp-Tor Upgrade Guide - Sample Data", js "EDHREC Team", js "2024",
   [.header 1 (js "Veloci-Ramp-Tor Upgrade Guide"),
    .paragraph (js "Welcome to the upgrade guide for Veloci-Ramp-Tor! This aggressive dinosaur commander wants to smash face quickly and efficiently. We'll be upgrading the mana base, adding powerful threats, and improving the overall consistency.") [] false,
    .header 2 (js "Original Decklist"),
    .cardlist false
      [js "1 Command Tower", js "1 Forest", js "1 Mountain", js "1 Sol Ring",
       js "1 Llanowar Elves", js "1 Lizard Blades", js "1 Swiftfoot Boots"],
    .header 2 (js "Mana Base Upgrades"),
    .paragraph (js "First, let's improve the mana consistency. We need lands that come in untapped and provide multiple colors efficiently.") [] false,
    .individualCard (js "Breeding Pool"),
    .individualCard (js "Stomping Ground"),
    .header 2 (js "Powerful Additions"),
    .paragraph (js "These cards will significantly increase your win percentage by providing explosive turns and powerful effects.") [] false,
    .individualCard (js "Ghalta, Primal Hunger"),
    .individualCard (js "Terror of the Peaks"),
    .header 2 (js "Upgraded Decklist"),
    .cardlist false
      [js "1 Command Tower", js "1 Breeding Pool", js "1 Stomping Ground",
       js "1 Sol Ring", js "1 Ghalta, Primal Hunger", js "1 Terror of the Peaks",
       js "1 Nature's Lore"]],
   []⟩

/-- Model of the legacy `extractUpgradeGuide(url)`: the same pipeline, but
its catch handler swallows every failure — fetch exhaustion, empty body,
parse error or zero content blocks — and returns the sample guide
("Fallback to sample data for demonstration"). -/
def extractUpgradeGuideLegacy (fetched : Except ExtractErr JSStr)
    (parse : JSStr → Except ExtractErr GuideData) : GuideData :=
  match fetched with
  | .error _ => getSampleUpgradeGuide
  | .ok html =>
    if html.isEmpty then getSampleUpgradeGuide
    else
      match parse html with
      | .error _ => getSampleUpgradeGuide
      | .ok gd => if gd.contentBlocks.isEmpty then getSampleUpgradeGuide else gd

/-- Model of `getSampleData(commanderName)`: the hard-coded fallback
commander map (the argument is unused by the source too). -/
def getSampleData (_commanderName : JSStr) : List (JSStr × SectionVal) :=
  [(js "New Cards", SectionVal.cards
     [⟨js "Spider Manifestation", js "6.1%"⟩,
      ⟨js "Rhino, Barreling Brute", js "2.9%"⟩,
      ⟨js "Lizard, Connors's Curse", js "2.6%"⟩,
      ⟨js "Rhino's Rampage", js "2.0%"⟩,
      ⟨js "Scarlet Spider, Ben Reilly", js "1.6%"⟩]),
   (js "High Synergy Cards", SectionVal.cards
     [⟨js "Goreclaw, Terror of Qal Sisma", js "68%"⟩,
      ⟨js "Ghalta, Primal Hunger", js "59%"⟩,
      ⟨js "Quartzwood Crasher", js "56%"⟩,
      ⟨js "Etali, Primal Storm", js "55%"⟩,
      ⟨js "Anzrag, the Quake-Mole", js "54%"⟩,
      ⟨js "Ilharg, the Raze-Boar", js "49%"⟩,
      ⟨js "Bloodthirster", js "45%"⟩,
      ⟨js "Ojer Kaslem, Deepest Growth", js "45%"⟩,
      ⟨js "Scourge of the Throne", js "44%"⟩]),
   (js "Top Cards", SectionVal.cards
     [⟨js "Garruk's Uprising", js "74%"⟩,
      ⟨js "Cultivate", js "64%"⟩,
      ⟨js "Beast Within", js "63%"⟩,
      ⟨js "Llanowar Elves", js "59%"⟩,
      ⟨js "Goblin Anarchomancer", js "58%"⟩,
      ⟨js "Rishkar's Expertise", js "55%"⟩,
      ⟨js "Nature's Lore", js "54%"⟩,
      ⟨js "Kodama's Reach", js "53%"⟩,
      ⟨js "Elvish Mystic", js "52%"⟩,
      ⟨js "Blasphemous Act", js "50%"⟩]),
   (js "Creatures", SectionVal.cards
     [⟨js "Birds of Paradise", js "50%"⟩,
      ⟨js "Selvala, Heart of the Wilds", js "47%"⟩,
      ⟨js "Savage Ventmaw", js "47%"⟩,
      ⟨js "Moraug, Fury of Akoum", js "44%"⟩,
      ⟨js "Fanatic of Rhonas", js "44%"⟩])]

/-- Model of `EDHRECExtractor.extractData(commanderName)`: on a successful
fetch, parse the document (the `DOMParser` and the deck-count regexp scan
are the passed-in capabilities); any failure is swallowed by the catch
handler, which returns the fabricated sample map. -/
def extractData (fetched : Except ExtractErr JSStr) (parseDoc : JSStr → Dom)
    (deckCount : JSStr → Option JSStr) (commanderName : JSStr) :
    List (JSStr × SectionVal) :=
  match fetched with
  | .error _ => getSampleData commanderName
  | .ok html => parseHTML (parseDoc html) (deckCount html)

/-- A structurally valid parse result with zero content blocks. -/
def emptyGuide : GuideData := ⟨[], [], [], [], []⟩

/-- Claim C3, counterexample.  On a failed fetch (all proxies exhausted),
the legacy `extractUpgradeGuide` returns the fabricated sample guide and
`EDHRECExtractor.extractData` returns the fabricated sample map — success
values, not propagated errors — so the claim that the extraction entry point
never substitutes placeholder data for a real failure is false of them. -/
theorem extract_error_policy_claim_false :
    extractUpgradeGuideLegacy (.error (.fetchErr (js "All proxy attempts failed")))
        (fun _ => .error (.parseErr [])) = getSampleUpgradeGuide ∧
      extractData (.error (.fetchErr (js "All proxy attempts failed"))) (fun _ => .txt [])
        (fun _ => none) (js "Goreclaw, Terror of Qal Sisma") =
        getSampleData (js "Goreclaw, Terror of Qal Sisma") ∧
      getSampleUpgradeGuide.contentBlocks ≠ [] :=
  ⟨rfl, rfl, by decide⟩

/-- Claim C3, amended.  Only the strict variant propagates typed errors: a
failed fetch and a failed parse each surface as the same typed error to the
caller.  The legacy variant and `extractData` instead swallow every failure
and return the fabricated sample guide / sample map. -/
theorem extract_error_policy :
    (∀ (e : ExtractErr) (parse : JSStr → Except ExtractErr GuideData),
        extractUpgradeGuideStrict (.error e) parse = .error e) ∧
      (∀ (html : JSStr) (parse : JSStr → Except ExtractErr GuideData) (e : ExtractErr),
        html ≠ [] → parse html = .error e →
        extractUpgradeGuideStrict (.ok html) parse = .error e) ∧
      (∀ (e : ExtractErr) (parse : JSStr → Except ExtractErr GuideData),
        extractUpgradeGuideLegacy (.error e) parse = getSampleUpgradeGuide) ∧
      (∀ (e : ExtractErr) (parseDoc : JSStr → Dom) (deckCount : JSStr → Option JSStr)
          (cn : JSStr),
        extractData (.error e) parseDoc deckCount cn = getSampleData cn) := by
  refine ⟨fun e parse => rfl, ?_, fun e parse => rfl, fun e pd dc cn => rfl⟩
  intro html parse e hne hp
  simp only [extractUpgradeGuideStrict]
  rw [if_neg (by simp [List.isEmpty_iff, hne]), hp]

/-- Claim C3, witness: the strict propagation applied at a concrete non-empty
body and failing parse. -/
theorem extract_error_policy_witness :
    extractUpgradeGuideStrict (.ok (js "x")) (fun _ => .error (.parseErr (js "boom"))) =
      .error (.parseErr (js "boom")) :=
  extract_error_policy.2.1 (js "x") (fun _ => .error (.parseErr (js "boom")))
    (.parseErr (js "boom")) (by decide) rfl

set_option maxRecDepth 8192 in
/-- Claim C6, counterexample.  When parsing yields a structurally valid
guide with zero content blocks, the legacy entry point does not raise a
typed Content error: its catch handler converts the failure into a
successful return of the (non-empty) sample guide. -/
theorem extract_validation_claim_false :
    extractUpgradeGuideLegacy (.ok (js "x")) (fun _ => .ok emptyGuide) =
        getSampleUpgradeGuide ∧
      getSampleUpgradeGuide.contentBlocks ≠ [] := by
  exact ⟨by decide, by decide⟩

/-- Claim C6, amended.  The strict variant never succeeds with zero content
blocks: success implies a non-empty `contentBlocks`, and a zero-block parse
raises `EDHRECContentError`.  The legacy variant, on the same zero-block
parse, raises nothing and returns the sample guide instead. -/
theorem extract_validation :
    (∀ (fetched : Except ExtractErr JSStr) (parse : JSStr → Except ExtractErr GuideData)
        (gd : GuideData),
        extractUpgradeGuideStrict fetched parse = .ok gd → gd.contentBlocks ≠ []) ∧
      (∀ (html : JSStr) (parse : JSStr → Except ExtractErr GuideData) (gd : GuideData),
        html ≠ [] → parse html = .ok gd → gd.contentBlocks = [] →
        extractUpgradeGuideStrict (.ok html) parse =
            .error (.contentErr (js "No content blocks found after parsing")) ∧
          extractUpgradeGuideLegacy (.ok html) parse = getSampleUpgradeGuide) := by
  constructor
  · intro fetched parse gd h
    cases fetched with
    | error e => exact absurd h (by simp [extractUpgradeGuideStrict])
    | ok html =>
      simp only [extractUpgradeGuideStrict] at h
      split at h
      · exact absurd h (by simp)
      · split at h
        · exact absurd h (by simp)
        · split at h
          · exact absurd h (by simp)
          · rename_i hne
            simp only [Except.ok.injEq] at h
            subst h
            intro hnil
            rw [hnil] at hne
            simp at hne
  · intro html parse gd hne hp hempty
    constructor
    · simp only [extractUpgradeGuideStrict]
      rw [if_neg (by simp [List.isEmpty_iff, hne]), hp]
      simp [hempty]
    · simp only [extractUpgradeGuideLegacy]
      rw [if_neg (by simp [List.isEmpty_iff, hne]), hp]
      simp [hempty]

/-- Claim C6, witness: the validation statement applied at a concrete
non-empty body whose parse yields the zero-block guide. -/
theorem extract_validation_witness :
    extractUpgradeGuideStrict (.ok (js "x")) (fun _ => .ok emptyGuide) =
        .error (.contentErr (js "No content blocks found after parsing")) ∧
      extractUpgradeGuideLegacy (.ok (js "x")) (fun _ => .ok emptyGuide) =
        getSampleUpgradeGuide :=
  extract_validation.2 (js "x") (fun _ => .ok emptyGuide) emptyGuide (by decide) rfl rfl
